import Mathlib

/-!
Shallow embedding of the virtual-memory subsystem of the `lab2-os4` kernel
(`src/os4` and its reference solution `src/os4-ref`), together with proofs
about its specified behaviour.

Conventions of the embedding:
* Rust `usize` values are embedded as `Nat`; wherever the Rust code can wrap
  (additions and left shifts near `2 ^ 64`), the embedding takes the result
  modulo `2 ^ 64` (release-mode wrapping semantics).
* The newtype wrappers `VirtAddr`, `PhysAddr`, `VirtPageNum`, `PhysPageNum`
  are transparent `usize` wrappers in the source; their operations are
  embedded as functions on `Nat`, kept in namespaces matching the Rust types.
* A page-table entry is its raw `bits : usize` word.
* Physical memory is a function `Mem : Nat → Nat → Nat`: `mem ppn i` is the
  raw page-table entry stored in slot `i` of the 512-entry array occupying
  physical page `ppn` (the view produced by `PhysPageNum::get_pte_array`).
* Rust panics (`assert!`, `unwrap` on allocator exhaustion) are embedded as
  the `Except` errors `KErr.assertFail` and `KErr.oom`.
-/

/-- `config::PAGE_SIZE`. -/
def PAGE_SIZE : Nat := 4096

/-- `config::PAGE_SIZE_BITS`. -/
def PAGE_SIZE_BITS : Nat := 12

/-- One past the largest `usize` value: Rust `usize` arithmetic wraps modulo this. -/
def USIZE : Nat := 2 ^ 64

namespace VirtAddr

/-- `VirtAddr::floor`: `VirtPageNum(self.0 / PAGE_SIZE)`. -/
def floor (a : Nat) : Nat := a / PAGE_SIZE

/-- `VirtAddr::ceil`: `VirtPageNum((self.0 + PAGE_SIZE - 1) / PAGE_SIZE)` in
`os4`, with wrapping `usize` addition; `os4-ref` writes the numerator as
`self.0 - 1 + PAGE_SIZE`, which under wrapping arithmetic is the same value
`(a + 4095) mod 2^64`. -/
def ceil (a : Nat) : Nat := ((a + (PAGE_SIZE - 1)) % USIZE) / PAGE_SIZE

/-- `VirtAddr::page_offset`: `self.0 & (PAGE_SIZE - 1)`. -/
def page_offset (a : Nat) : Nat := a &&& (PAGE_SIZE - 1)

/-- `VirtAddr::aligned`: `self.page_offset() == 0`. -/
def aligned (a : Nat) : Prop := page_offset a = 0

end VirtAddr

namespace PhysAddr

/-- `PhysAddr::floor`. -/
def floor (a : Nat) : Nat := a / PAGE_SIZE

/-- `PhysAddr::ceil` (same numerator as the virtual version, see there). -/
def ceil (a : Nat) : Nat := ((a + (PAGE_SIZE - 1)) % USIZE) / PAGE_SIZE

/-- `PhysAddr::page_offset`. -/
def page_offset (a : Nat) : Nat := a &&& (PAGE_SIZE - 1)

end PhysAddr

namespace VirtPageNum

/-- `impl From<VirtPageNum> for VirtAddr`: `VirtAddr(v.0 << PAGE_SIZE_BITS)`
(the shift silently discards bits above the word width). -/
def to_va (v : Nat) : Nat := (v <<< PAGE_SIZE_BITS) % USIZE

/-- `VirtPageNum::indexes` (os4-ref): the loop
`for i in (0..3).rev() { idx[i] = vpn & 511; vpn >>= 9; }` unrolled:
entry `i` holds the bits of `vpn` shifted right by `9 * (2 - i)`, masked to
nine bits, most-significant group first. -/
def indexes (v : Nat) : List Nat :=
  [(v >>> 18) &&& 511, (v >>> 9) &&& 511, v &&& 511]

/-- `VirtPageNum::indexex` (os4): identical loop shape, but the mask written
in the source is the hex literal `0x11_1111_1111` (not the binary nine-ones
mask), so each step computes `vpn & 0x1111111111`. -/
def indexex (v : Nat) : List Nat :=
  [(v >>> 18) &&& 0x1111111111, (v >>> 9) &&& 0x1111111111, v &&& 0x1111111111]

end VirtPageNum

namespace PhysPageNum

/-- `impl From<PhysPageNum> for PhysAddr`: `PhysAddr(v.0 << PAGE_SIZE_BITS)`. -/
def to_pa (p : Nat) : Nat := (p <<< PAGE_SIZE_BITS) % USIZE

end PhysPageNum

namespace PageTableEntry

/-- `PageTableEntry::new(ppn, flags)`: `bits = ppn.0 << 10 | flags.bits as usize`
(`flags` is a `u8`, hence the `% 256`). -/
def new (ppn flags : Nat) : Nat := ((ppn <<< 10) % USIZE) ||| (flags % 256)

/-- `PageTableEntry::empty()`: all-zero bits. -/
def empty : Nat := 0

/-- `PageTableEntry::ppn`: `bits >> 10 & ((1 << 44) - 1)`. -/
def ppn (e : Nat) : Nat := (e >>> 10) &&& (2 ^ 44 - 1)

/-- `PageTableEntry::flags`: `bits as u8`. -/
def flags (e : Nat) : Nat := e % 256

/-- `PageTableEntry::is_valid`: `flags() & PTEFlags::V != empty` with `V = 1`. -/
def is_valid (e : Nat) : Bool := flags e &&& 1 != 0

end PageTableEntry

/-- `StackFrameAllocator` (identical fields and logic in os4 and os4-ref);
the Rust field `end` is spelled `end_` here. The `recycled` vector is kept
with its stack top at the list head (`Vec::push`/`Vec::pop` act on the head
of this list). -/
structure StackFrameAllocator where
  current : Nat
  end_ : Nat
  recycled : List Nat
deriving DecidableEq

namespace StackFrameAllocator

/-- `StackFrameAllocator::alloc`: pop a recycled page if any, otherwise hand
out `current` (advancing it), failing only when `current == end`. -/
def alloc (s : StackFrameAllocator) : Option (Nat × StackFrameAllocator) :=
  match s.recycled with
  | p :: rest => some (p, ⟨s.current, s.end_, rest⟩)
  | [] =>
    if s.current = s.end_ then none
    else some (s.current, ⟨s.current + 1, s.end_, []⟩)

/-- `StackFrameAllocator::dealloc`: panic (`none`) when the page was never
allocated (`ppn >= current`) or is already in the free list; otherwise push
it on the free list. -/
def dealloc (s : StackFrameAllocator) (ppn : Nat) : Option StackFrameAllocator :=
  if s.current ≤ ppn ∨ ppn ∈ s.recycled then none
  else some ⟨s.current, s.end_, ppn :: s.recycled⟩

/-- Allocation of `n` frames in sequence (as done by repeated `frame_alloc`). -/
def allocN : StackFrameAllocator → Nat → Option (List Nat × StackFrameAllocator)
  | s, 0 => some ([], s)
  | s, n + 1 =>
    match s.alloc with
    | none => none
    | some (p, s') =>
      match allocN s' n with
      | none => none
      | some (ps, s'') => some (p :: ps, s'')

/-- Deallocation of a list of frames in sequence. -/
def deallocList : StackFrameAllocator → List Nat → Option StackFrameAllocator
  | s, [] => some s
  | s, p :: ps =>
    match s.dealloc p with
    | none => none
    | some s' => deallocList s' ps

/-- The allocator states reachable from `init`: `current` has not passed
`end`, and the free list holds pairwise-distinct pages that were all handed
out before (below the high-water mark). -/
def WF (s : StackFrameAllocator) : Prop :=
  s.current ≤ s.end_ ∧ s.recycled.Nodup ∧ ∀ p ∈ s.recycled, p < s.current

instance (s : StackFrameAllocator) : Decidable (WF s) := by
  unfold WF; infer_instance

/-- Number of frames still available: the free list plus the untouched range. -/
def capacity (s : StackFrameAllocator) : Nat :=
  s.recycled.length + (s.end_ - s.current)

end StackFrameAllocator

/-- Physical memory, viewed page-table-node-wise: `mem ppn i` is the raw
entry in slot `i` (of 512) of the node stored in physical page `ppn`. -/
abbrev Mem := Nat → Nat → Nat

namespace Mem

/-- Store `x` in slot `i` of page `p` (the effect of `*pte = ...`). -/
def write (mem : Mem) (p i x : Nat) : Mem :=
  fun q j => if q = p ∧ j = i then x else mem q j

/-- Zero every slot of page `p` (the byte-wise clear in `FrameTracker::new`). -/
def zeroPage (mem : Mem) (p : Nat) : Mem :=
  fun q j => if q = p then 0 else mem q j

end Mem

/-- The global mutable context threaded through the page-table code: the
frame-allocator singleton plus physical memory. -/
structure Machine where
  fa : StackFrameAllocator
  mem : Mem

/-- `frame_alloc()`: take a page from the global allocator and zero-fill it
(`FrameTracker::new`); `none` models allocator exhaustion. -/
def frame_alloc (m : Machine) : Option (Nat × Machine) :=
  match m.fa.alloc with
  | none => none
  | some (p, fa') => some (p, ⟨fa', m.mem.zeroPage p⟩)

/-- The two panic modes of the embedded kernel code: `unwrap` of an exhausted
allocator, and a failed `assert!`. -/
inductive KErr
  | oom
  | assertFail
deriving DecidableEq

/-- `PageTable`: root node's physical page number plus the owned node frames. -/
structure PageTable where
  root_ppn : Nat
  frames : List Nat

namespace PageTable

/-- `PageTable::new`: allocate (and zero) one frame for the root. -/
def new (m : Machine) : Option (PageTable × Machine) :=
  match frame_alloc m with
  | none => none
  | some (f, m') => some (⟨f, [f]⟩, m')

/-- `PageTable::from_token`: root only, no owned frames. -/
def from_token (satp : Nat) : PageTable :=
  ⟨satp &&& (2 ^ 44 - 1), []⟩

/-- `PageTable::token` (os4-ref): `8usize << 60 | root_ppn`. -/
def token (pt : PageTable) : Nat := (8 <<< 60) ||| pt.root_ppn

end PageTable

/-- One interior level of `find_pte_create`: read the entry at `idx` in node
`node`; when invalid, allocate a fresh zeroed frame, point the entry at it
with only `V` set, and record the frame in the table's frame list; then
descend to the entry's `ppn()`. -/
def stepCreate (node idx : Nat) (pt : PageTable) (m : Machine) :
    Except KErr (Nat × PageTable × Machine) :=
  let pte := m.mem node idx
  if PageTableEntry.is_valid pte then
    .ok (PageTableEntry.ppn pte, pt, m)
  else
    match frame_alloc m with
    | none => .error .oom
    | some (f, m') =>
      let e := PageTableEntry.new f 1
      .ok (PageTableEntry.ppn e, ⟨pt.root_ppn, pt.frames ++ [f]⟩,
        ⟨m'.fa, m'.mem.write node idx e⟩)

/-- `PageTable::find_pte_create`: walk the three 9-bit indices from the root,
creating missing interior nodes at the first two levels, and return the
location (node page, slot index) of the leaf entry. -/
def find_pte_create (pt : PageTable) (m : Machine) (vpn : Nat) :
    Except KErr (Nat × Nat × PageTable × Machine) :=
  match VirtPageNum.indexes vpn with
  | [i0, i1, i2] =>
    match stepCreate pt.root_ppn i0 pt m with
    | .error e => .error e
    | .ok (n1, pt1, m1) =>
      match stepCreate n1 i1 pt1 m1 with
      | .error e => .error e
      | .ok (n2, pt2, m2) => .ok (n2, i2, pt2, m2)
  | _ => .error .oom

/-- `PageTable::find_pte`: the same walk without creation; `none` as soon as
an interior entry is invalid.  Returns the leaf location. -/
def find_pte (pt : PageTable) (m : Machine) (vpn : Nat) : Option (Nat × Nat) :=
  match VirtPageNum.indexes vpn with
  | [i0, i1, i2] =>
    let e0 := m.mem pt.root_ppn i0
    if PageTableEntry.is_valid e0 then
      let e1 := m.mem (PageTableEntry.ppn e0) i1
      if PageTableEntry.is_valid e1 then some (PageTableEntry.ppn e1, i2)
      else none
    else none
  | _ => none

namespace PageTable

/-- `PageTable::map` (same in os4 and os4-ref): find-or-create the leaf slot,
assert it is invalid, then write `PageTableEntry::new(ppn, flags | V)`. -/
def map (pt : PageTable) (m : Machine) (vpn ppn flags : Nat) :
    Except KErr (PageTable × Machine) :=
  match find_pte_create pt m vpn with
  | .error e => .error e
  | .ok (node, idx, pt', m') =>
    if PageTableEntry.is_valid (m'.mem node idx) then .error .assertFail
    else .ok (pt', ⟨m'.fa, m'.mem.write node idx (PageTableEntry.new ppn (flags ||| 1))⟩)

/-- `PageTable::unmap` as written in os4-ref: find the leaf slot, assert it
IS valid, then clear it to the empty entry. -/
def unmap (pt : PageTable) (m : Machine) (vpn : Nat) :
    Except KErr (PageTable × Machine) :=
  match find_pte_create pt m vpn with
  | .error e => .error e
  | .ok (node, idx, pt', m') =>
    if PageTableEntry.is_valid (m'.mem node idx) then
      .ok (pt', ⟨m'.fa, m'.mem.write node idx PageTableEntry.empty⟩)
    else .error .assertFail

/-- `PageTable::unmap` as written in os4: its assertion is
`assert!(!pte.is_valid(), "vpn is mapped before mapping")`, i.e. it panics
when the leaf IS valid and clears the slot only when it was already invalid. -/
def unmap_os4 (pt : PageTable) (m : Machine) (vpn : Nat) :
    Except KErr (PageTable × Machine) :=
  match find_pte_create pt m vpn with
  | .error e => .error e
  | .ok (node, idx, pt', m') =>
    if PageTableEntry.is_valid (m'.mem node idx) then .error .assertFail
    else .ok (pt', ⟨m'.fa, m'.mem.write node idx PageTableEntry.empty⟩)

/-- `PageTable::translate`: copy of the leaf entry found by `find_pte`. -/
def translate (pt : PageTable) (m : Machine) (vpn : Nat) : Option Nat :=
  match find_pte pt m vpn with
  | none => none
  | some (node, idx) => some (m.mem node idx)

end PageTable

/-- `MapType`: identical or framed mapping policy. -/
inductive MapType
  | Identical
  | Framed
deriving DecidableEq

/-- `MapArea`: a half-open virtual-page range, its policy, its `MapPermission`
bits (a `u8` subset `R=2, W=4, X=8, U=16` of the PTE flag bits), and the
`data_frames` association from virtual page to owned frame. -/
structure MapArea where
  vpn_start : Nat
  vpn_end : Nat
  map_type : MapType
  map_perm : Nat
  data_frames : List (Nat × Nat)

namespace MapArea

/-- `MapArea::new`: floor the start address, ceil the end address. -/
def new (start_va end_va : Nat) (ty : MapType) (perm : Nat) : MapArea :=
  ⟨VirtAddr.floor start_va, VirtAddr.ceil end_va, ty, perm, []⟩

/-- `MapArea::map_one`: pick the physical page per policy (identical: the vpn
itself; framed: a fresh zeroed frame recorded in `data_frames`), then insert
the pair through `PageTable::map` with `PTEFlags::from_bits(map_perm)`, which
is numerically `map_perm` itself. -/
def map_one (a : MapArea) (pt : PageTable) (m : Machine) (vpn : Nat) :
    Except KErr (MapArea × PageTable × Machine) :=
  match a.map_type with
  | .Identical =>
    match pt.map m vpn vpn a.map_perm with
    | .error e => .error e
    | .ok (pt', m') => .ok (a, pt', m')
  | .Framed =>
    match frame_alloc m with
    | none => .error .oom
    | some (f, m') =>
      match pt.map m' vpn f a.map_perm with
      | .error e => .error e
      | .ok (pt', m'') =>
        .ok ({ a with data_frames := a.data_frames ++ [(vpn, f)] }, pt', m'')

/-- The `for vpn in self.vpn_range` loop of `MapArea::map`, by remaining page
count. -/
def mapRange (a : MapArea) (pt : PageTable) (m : Machine) :
    Nat → Nat → Except KErr (MapArea × PageTable × Machine)
  | 0, _ => .ok (a, pt, m)
  | n + 1, vpn =>
    match a.map_one pt m vpn with
    | .error e => .error e
    | .ok (a', pt', m') => mapRange a' pt' m' n (vpn + 1)

/-- `MapArea::map`: map every page of `[vpn_start, vpn_end)`. -/
def map (a : MapArea) (pt : PageTable) (m : Machine) :
    Except KErr (MapArea × PageTable × Machine) :=
  a.mapRange pt m (a.vpn_end - a.vpn_start) a.vpn_start

/-- `MapArea::unmap_one` (os4): drop the owned frame entry for a framed page,
then call the os4 `PageTable::unmap`. -/
def unmap_one (a : MapArea) (pt : PageTable) (m : Machine) (vpn : Nat) :
    Except KErr (MapArea × PageTable × Machine) :=
  let a' :=
    match a.map_type with
    | .Framed => { a with data_frames := a.data_frames.filter (fun kv => kv.1 != vpn) }
    | .Identical => a
  match pt.unmap_os4 m vpn with
  | .error e => .error e
  | .ok (pt', m') => .ok (a', pt', m')

/-- The `for vpn in self.vpn_range` loop of `MapArea::unmap` (os4). -/
def unmapRange (a : MapArea) (pt : PageTable) (m : Machine) :
    Nat → Nat → Except KErr (MapArea × PageTable × Machine)
  | 0, _ => .ok (a, pt, m)
  | n + 1, vpn =>
    match a.unmap_one pt m vpn with
    | .error e => .error e
    | .ok (a', pt', m') => unmapRange a' pt' m' n (vpn + 1)

/-- `MapArea::unmap` (os4): unmap every page of `[vpn_start, vpn_end)`. -/
def unmap (a : MapArea) (pt : PageTable) (m : Machine) :
    Except KErr (MapArea × PageTable × Machine) :=
  a.unmapRange pt m (a.vpn_end - a.vpn_start) a.vpn_start

end MapArea

/-- `MemorySet`: one page table plus the list of areas. -/
structure MemorySet where
  page_table : PageTable
  areas : List MapArea

namespace MemorySet

/-- `MemorySet::push` (with `data = None`, the mmap path): map the area into
the page table, then append it to the area list. -/
def push (ms : MemorySet) (m : Machine) (a : MapArea) :
    Except KErr (MemorySet × Machine) :=
  match a.map ms.page_table m with
  | .error e => .error e
  | .ok (a', pt', m') => .ok (⟨pt', ms.areas ++ [a']⟩, m')

/-- `MemorySet::insert_framed_area`. -/
def insert_framed_area (ms : MemorySet) (m : Machine)
    (start_va end_va perm : Nat) : Except KErr (MemorySet × Machine) :=
  ms.push m (MapArea.new start_va end_va .Framed perm)

/-- The byte-address equality test of `MemorySet::remove`: the raw requested
`start` must equal the area's start page converted to an address, and the
area's end page converted to an address must equal `start + len` (wrapping). -/
def areaMatches (a : MapArea) (start len : Nat) : Bool :=
  decide (start = VirtPageNum.to_va a.vpn_start) &&
    decide (VirtPageNum.to_va a.vpn_end = (start + len) % USIZE)

/-- The indexed `for` loop of `MemorySet::remove`: scan for the first area
with exactly matching bounds; on a match, unmap it (os4 page-table unmap)
and delete it from the list, returning 0; if the scan ends, return -1. -/
def removeGo (before rest : List MapArea) (ms : MemorySet) (m : Machine)
    (start len : Nat) : Except KErr (Int × MemorySet × Machine) :=
  match rest with
  | [] => .ok (-1, ms, m)
  | a :: rest' =>
    if areaMatches a start len then
      match a.unmap ms.page_table m with
      | .error e => .error e
      | .ok (_, pt', m') => .ok (0, ⟨pt', before ++ rest'⟩, m')
    else removeGo (before ++ [a]) rest' ms m start len

/-- `MemorySet::remove(start, len)` (os4). -/
def remove (ms : MemorySet) (m : Machine) (start len : Nat) :
    Except KErr (Int × MemorySet × Machine) :=
  removeGo [] ms.areas ms m start len

end MemorySet

namespace TaskManager

/-- `TaskManager::sys_mmap` on the current task's memory set: reject with
`false` when the page range `[floor(start), ceil(start+len))` intersects any
existing area (`start_vpn < ele.end && end_vpn > ele.start`); otherwise
insert a framed area over exactly that page range. -/
def sys_mmap (ms : MemorySet) (m : Machine) (start len permission : Nat) :
    Except KErr (Bool × MemorySet × Machine) :=
  let start_vpn := VirtAddr.floor start
  let end_vpn := VirtAddr.ceil ((start + len) % USIZE)
  if ms.areas.any (fun a => decide (start_vpn < a.vpn_end) && decide (end_vpn > a.vpn_start)) then
    .ok (false, ms, m)
  else
    match ms.insert_framed_area m (VirtPageNum.to_va start_vpn)
        (VirtPageNum.to_va end_vpn) permission with
    | .error e => .error e
    | .ok (ms', m') => .ok (true, ms', m')

/-- `TaskManager::sys_munmap`: delegates to `MemorySet::remove`. -/
def sys_munmap (ms : MemorySet) (m : Machine) (start len : Nat) :
    Except KErr (Int × MemorySet × Machine) :=
  ms.remove m start len

end TaskManager

/-- The permission translation inside `syscall::process::sys_mmap`: start
from `MapPermission::U` (bit 4) and or-in `R`, `W`, `X` for port bits 0-2. -/
def permOf (port : Nat) : Nat :=
  ((16 ||| (if port &&& 1 = 1 then 2 else 0)) |||
    (if port &&& 2 = 2 then 4 else 0)) |||
    (if port &&& 4 = 4 then 8 else 0)

/-- `syscall::process::sys_mmap`: the guard chain of the syscall entry point.
`!0x7` on `usize` is `2^64 - 8`. -/
def sys_mmap (ms : MemorySet) (m : Machine) (start len port : Nat) :
    Except KErr (Int × MemorySet × Machine) :=
  if len = 0 then .ok (0, ms, m)
  else if 268439552 < start ∨ start % PAGE_SIZE ≠ 0 then .ok (-1, ms, m)
  else if port &&& (USIZE - 8) ≠ 0 ∨ port &&& 7 = 0 then .ok (-1, ms, m)
  else
    match TaskManager.sys_mmap ms m start len (permOf port) with
    | .error e => .error e
    | .ok (ok, ms', m') => if ok then .ok (0, ms', m') else .ok (-1, ms', m')

/-- `syscall::process::sys_munmap`: delegates through `kernel_sys_munmap`. -/
def sys_munmap (ms : MemorySet) (m : Machine) (start len : Nat) :
    Except KErr (Int × MemorySet × Machine) :=
  TaskManager.sys_munmap ms m start len

/-! ### Arithmetic and bit-level helper lemmas -/

theorem and_mask_eq_mod (x n : Nat) : x &&& (2 ^ n - 1) = x % 2 ^ n :=
  Nat.and_pow_two_sub_one_eq_mod x n

theorem and511_eq (x : Nat) : x &&& 511 = x % 512 := by
  have h := and_mask_eq_mod x 9
  norm_num at h
  exact h

theorem and4095_eq (x : Nat) : x &&& 4095 = x % 4096 := by
  have h := and_mask_eq_mod x 12
  norm_num at h
  exact h

theorem and7_eq (x : Nat) : x &&& 7 = x % 8 := by
  have h := and_mask_eq_mod x 3
  norm_num at h
  exact h

/-- Or-ing a value shifted past `k` bits with a `k`-bit value is addition. -/
theorem shiftLeft_lor_low (a b k : Nat) (hb : b < 2 ^ k) :
    (a <<< k) ||| b = a * 2 ^ k + b := by
  apply Nat.eq_of_testBit_eq
  intro i
  rw [Nat.testBit_lor, Nat.testBit_shiftLeft]
  rcases lt_or_ge i k with hik | hik
  · have h1 : decide (i ≥ k) = false := by simp; omega
    rw [h1, Bool.false_and, Bool.false_or]
    rw [Nat.testBit_to_div_mod, Nat.testBit_to_div_mod]
    have h2 : a * 2 ^ k + b = 2 ^ i * (a * 2 ^ (k - i)) + b := by
      rw [← mul_assoc, mul_comm (2 ^ i) a, mul_assoc, ← pow_add]
      congr 3
      omega
    have h4 : (a * 2 ^ k + b) / 2 ^ i = a * 2 ^ (k - i) + b / 2 ^ i := by
      rw [h2, Nat.mul_add_div (Nat.pos_pow_of_pos i (by norm_num))]
    have h3 : a * 2 ^ (k - i) % 2 = 0 := by
      have h5 : a * 2 ^ (k - i) = a * 2 ^ (k - i - 1) * 2 := by
        rw [mul_assoc, ← pow_succ]
        congr 2
        omega
      omega
    simp only [decide_eq_decide]
    rw [h4]
    omega
  · have h1 : decide (i ≥ k) = true := by simp; omega
    have hbi : b.testBit i = false :=
      Nat.testBit_eq_false_of_lt (lt_of_lt_of_le hb (Nat.pow_le_pow_right (by norm_num) hik))
    rw [h1, Bool.true_and, hbi, Bool.or_false]
    rw [Nat.testBit_to_div_mod, Nat.testBit_to_div_mod]
    have h2 : (a * 2 ^ k + b) / 2 ^ i = a / 2 ^ (i - k) := by
      have h5 : (2 : Nat) ^ i = 2 ^ k * 2 ^ (i - k) := by
        rw [← pow_add]
        congr 1
        omega
      have h6 : (a * 2 ^ k + b) / 2 ^ k = a + b / 2 ^ k := by
        rw [mul_comm, Nat.mul_add_div (Nat.pos_pow_of_pos k (by norm_num))]
      rw [h5, ← Nat.div_div_eq_div_mul, h6, Nat.div_eq_of_lt hb]
      norm_num
    rw [h2]

/-- And distributes over a shifted mask. -/
theorem and_shiftLeft_mask (x y k : Nat) :
    x &&& (y <<< k) = ((x >>> k) &&& y) <<< k := by
  apply Nat.eq_of_testBit_eq
  intro i
  rw [Nat.testBit_land, Nat.testBit_shiftLeft, Nat.testBit_shiftLeft, Nat.testBit_land,
    Nat.testBit_shiftRight]
  rcases lt_or_ge i k with hik | hik
  · have h1 : decide (i ≥ k) = false := by simp; omega
    rw [h1]
    simp
  · have h1 : decide (i ≥ k) = true := by simp; omega
    rw [h1]
    have h2 : k + (i - k) = i := by omega
    rw [h2]
    simp [Bool.and_comm, Bool.and_left_comm]

namespace PageTableEntry

/-- Arithmetic normal form of `PageTableEntry::new`. -/
theorem new_eq (p f : Nat) : new p f = p % 2 ^ 54 * 2 ^ 10 + f % 256 := by
  unfold new
  rw [Nat.shiftLeft_eq]
  have h2 : p * 2 ^ 10 % USIZE = p % 2 ^ 54 * 2 ^ 10 := by
    unfold USIZE
    have h3 : (2 : Nat) ^ 64 = 2 ^ 54 * 2 ^ 10 := by norm_num
    rw [h3, Nat.mul_mod_mul_right]
  have h4 : (p % 2 ^ 54 * 2 ^ 10) <<< 0 = p % 2 ^ 54 * 2 ^ 10 := rfl
  calc p * 2 ^ 10 % USIZE ||| f % 256
      = (p % 2 ^ 54 * 2 ^ 10) ||| f % 256 := by rw [h2]
    _ = (p % 2 ^ 54) <<< 10 ||| f % 256 := by rw [Nat.shiftLeft_eq]
    _ = p % 2 ^ 54 * 2 ^ 10 + f % 256 :=
        shiftLeft_lor_low _ _ 10 (lt_trans (Nat.mod_lt _ (by norm_num)) (by norm_num))

/-- `PageTableEntry::ppn` recovers the page number passed to `new` whenever it
fits in 44 bits. -/
theorem ppn_new (p f : Nat) (hp : p < 2 ^ 44) : ppn (new p f) = p := by
  rw [new_eq]
  unfold ppn
  rw [Nat.shiftRight_eq_div_pow, and_mask_eq_mod]
  have h1 : p % 2 ^ 54 = p := Nat.mod_eq_of_lt (lt_trans hp (by norm_num))
  rw [h1]
  have h2 : (p * 2 ^ 10 + f % 256) / 2 ^ 10 = p := by
    rw [mul_comm, Nat.mul_add_div (by norm_num)]
    have : f % 256 / 2 ^ 10 = 0 := Nat.div_eq_of_lt (lt_trans (Nat.mod_lt _ (by norm_num)) (by norm_num))
    omega
  rw [h2]
  exact Nat.mod_eq_of_lt hp

/-- `PageTableEntry::flags` recovers the (8-bit) flag byte passed to `new`. -/
theorem flags_new (p f : Nat) : flags (new p f) = f % 256 := by
  rw [new_eq]
  unfold flags
  have h1 : p % 2 ^ 54 * 2 ^ 10 = 256 * (p % 2 ^ 54 * 4) := by ring
  rw [h1, Nat.mul_add_mod]
  exact Nat.mod_mod_of_dvd _ (by norm_num)

/-- `is_valid` is the parity of the raw word. -/
theorem is_valid_iff (e : Nat) : is_valid e = true ↔ e % 2 = 1 := by
  unfold is_valid flags
  rw [Nat.and_one_is_mod, Nat.mod_mod_of_dvd _ (by norm_num : (2 : Nat) ∣ 256)]
  simp [bne]

/-- Or-ing in the `V` bit makes the flag byte odd. -/
theorem lor_one_odd (f : Nat) : (f ||| 1) % 2 = 1 := by
  simp

/-- An entry built by `map` (flags or-ed with `V`) is valid. -/
theorem is_valid_new_lor_one (p f : Nat) : is_valid (new p (f ||| 1)) = true := by
  rw [is_valid_iff, new_eq]
  have h1 : p % 2 ^ 54 * 2 ^ 10 = 2 * (p % 2 ^ 54 * 2 ^ 9) := by ring
  have h2 : (f ||| 1) % 256 % 2 = (f ||| 1) % 2 := Nat.mod_mod_of_dvd _ (by norm_num)
  have h3 := lor_one_odd f
  omega

/-- The empty entry is invalid. -/
theorem is_valid_empty : is_valid empty = false := rfl

end PageTableEntry

/-- Clearing the low three bits of a 64-bit value yields zero exactly on
values below 8 (`port & !0x7` in the syscall guard). -/
theorem and_usize_sub8_eq_zero_iff (x : Nat) (hx : x < USIZE) :
    (x &&& (USIZE - 8) = 0) ↔ x < 8 := by
  have h1 : USIZE - 8 = (2 ^ 61 - 1) <<< 3 := by
    rw [Nat.shiftLeft_eq]
    unfold USIZE
    norm_num
  rw [h1, and_shiftLeft_mask, Nat.shiftRight_eq_div_pow, and_mask_eq_mod, Nat.shiftLeft_eq]
  have h2 : x / 2 ^ 3 % 2 ^ 61 = x / 2 ^ 3 := by
    apply Nat.mod_eq_of_lt
    unfold USIZE at hx
    omega
  rw [h2]
  unfold USIZE at hx
  omega

/-! ### Concrete example states used by witnesses and counterexamples -/

/-- A tiny machine: allocator over physical pages `[100, 200)`, all of
physical memory zeroed. -/
def mEx : Machine := ⟨⟨100, 200, []⟩, fun _ _ => 0⟩

/-- An empty memory set whose (unallocated, content-free) root is page 0. -/
def msEx : MemorySet := ⟨⟨0, []⟩, []⟩

/-! ### Claim C2 -/

/-- C2: the claim states that `indexes()`/`indexex()` of a virtual page
number returns three indices below 512 with index `i` equal to
`(vpn >> (9*(2-i))) & 511`.  The os4 `indexex` masks with the hex literal
`0x11_1111_1111` instead of 511: at `vpn = 4096` it yields `[0, 0, 4096]`
where the specified decomposition (computed by the os4-ref `indexes`) is
`[0, 8, 0]` — the middle index is lost and the last index, 4096, is not
below 512 (it would index out of bounds of the 512-entry node array). -/
theorem indexex_wrong_at_4096 :
    VirtPageNum.indexex 4096 = [0, 0, 4096] ∧
    VirtPageNum.indexes 4096 = [0, 8, 0] ∧
    ¬(4096 < 512) := by decide

/-! ### Claim C6 -/

/-- C6: `dealloc` rejects (fatally — modelled as `none`) a page at or beyond
the high-water mark and a page already in the free list; consequently a
second `dealloc` of the same page without an intervening allocation is
rejected, and a successful `dealloc` keeps the free list duplicate-free and
bounded by the high-water mark. -/
theorem dealloc_rejects (s : StackFrameAllocator) (p : Nat) :
    (s.current ≤ p → s.dealloc p = none) ∧
    (p ∈ s.recycled → s.dealloc p = none) ∧
    (∀ s', s.dealloc p = some s' → s'.dealloc p = none) ∧
    (StackFrameAllocator.WF s → ∀ s', s.dealloc p = some s' →
      s'.recycled.Nodup ∧ ∀ q ∈ s'.recycled, q < s'.current) := by
  refine ⟨?_, ?_, ?_, ?_⟩
  · intro h
    unfold StackFrameAllocator.dealloc
    rw [if_pos (Or.inl h)]
  · intro h
    unfold StackFrameAllocator.dealloc
    rw [if_pos (Or.inr h)]
  · intro s' h
    unfold StackFrameAllocator.dealloc at h ⊢
    by_cases hc : s.current ≤ p ∨ p ∈ s.recycled
    · rw [if_pos hc] at h
      exact absurd h (by simp)
    · rw [if_neg hc] at h
      cases h
      rw [if_pos (Or.inr (List.mem_cons_self p s.recycled))]
  · intro hwf s' h
    unfold StackFrameAllocator.dealloc at h
    by_cases hc : s.current ≤ p ∨ p ∈ s.recycled
    · rw [if_pos hc] at h
      exact absurd h (by simp)
    · rw [if_neg hc] at h
      cases h
      push_neg at hc
      exact ⟨List.Nodup.cons hc.2 hwf.2.1, by
        intro q hq
        rcases List.mem_cons.mp hq with h1 | h1
        · show q < s.current
          omega
        · exact hwf.2.2 q h1⟩

/-- Witness for C6 at concrete states: page 2 is at the high-water mark of
`⟨2, 5, [1]⟩` and rejected; page 1 is already recycled and rejected; page 0
deallocates once and is rejected the second time; and the resulting free
list `[0, 1]` is duplicate-free and below the mark. -/
theorem dealloc_rejects_witness :
    StackFrameAllocator.dealloc ⟨2, 5, [1]⟩ 2 = none ∧
    StackFrameAllocator.dealloc ⟨2, 5, [1]⟩ 1 = none ∧
    StackFrameAllocator.dealloc ⟨2, 5, [0, 1]⟩ 0 = none ∧
    ((⟨2, 5, [0, 1]⟩ : StackFrameAllocator).recycled.Nodup ∧
      ∀ q ∈ (⟨2, 5, [0, 1]⟩ : StackFrameAllocator).recycled,
        q < (⟨2, 5, [0, 1]⟩ : StackFrameAllocator).current) :=
  ⟨(dealloc_rejects ⟨2, 5, [1]⟩ 2).1 (by decide),
   (dealloc_rejects ⟨2, 5, [1]⟩ 1).2.1 (by decide),
   (dealloc_rejects ⟨2, 5, [1]⟩ 0).2.2.1 ⟨2, 5, [0, 1]⟩ (by decide),
   (dealloc_rejects ⟨2, 5, [1]⟩ 0).2.2.2 (by decide) ⟨2, 5, [0, 1]⟩ (by decide)⟩

/-! ### Claim C9 -/

/-- C9 (amended): for every virtual page number below `2 ^ 52` (so that the
`<< 12` conversion does not overflow the 64-bit word), converting to a
virtual address and back via `floor` is the identity; and for every virtual
or physical byte address, `floor` equals `ceil` exactly when the address is
page-aligned. -/
theorem floor_ceil_roundtrip (v a : Nat) (hv : v < 2 ^ 52) (ha : a < USIZE) :
    VirtAddr.floor (VirtPageNum.to_va v) = v ∧
    (VirtAddr.floor a = VirtAddr.ceil a ↔ VirtAddr.aligned a) ∧
    (PhysAddr.floor a = PhysAddr.ceil a ↔ PhysAddr.page_offset a = 0) := by
  refine ⟨?_, ?_, ?_⟩
  · unfold VirtAddr.floor VirtPageNum.to_va PAGE_SIZE PAGE_SIZE_BITS USIZE
    rw [Nat.shiftLeft_eq]
    have h12 : (2 : Nat) ^ 12 = 4096 := by norm_num
    rw [h12]
    omega
  · unfold VirtAddr.floor VirtAddr.ceil VirtAddr.aligned VirtAddr.page_offset PAGE_SIZE USIZE
    rw [show (4096 : Nat) - 1 = 4095 from rfl, and4095_eq]
    unfold USIZE at ha
    omega
  · unfold PhysAddr.floor PhysAddr.ceil PhysAddr.page_offset PAGE_SIZE USIZE
    rw [show (4096 : Nat) - 1 = 4095 from rfl, and4095_eq]
    unfold USIZE at ha
    omega

/-- Witness for C9 at `v = 5`, `a = 8192` (aligned) — the hypotheses hold
and the round trip and both alignment equivalences are instantiated. -/
theorem floor_ceil_roundtrip_witness :
    VirtAddr.floor (VirtPageNum.to_va 5) = 5 ∧
    (VirtAddr.floor 8192 = VirtAddr.ceil 8192 ↔ VirtAddr.aligned 8192) ∧
    (PhysAddr.floor 8192 = PhysAddr.ceil 8192 ↔ PhysAddr.page_offset 8192 = 0) :=
  floor_ceil_roundtrip 5 8192 (by norm_num) (by norm_num [USIZE])

/-- Counterexample to C9 as stated: the claim quantifies over every virtual
page number, but at `v = 2 ^ 52` the conversion `v << 12` wraps to 0, so the
round trip through `floor` returns 0, not `v`. -/
theorem floor_ceil_roundtrip_counterexample :
    VirtAddr.floor (VirtPageNum.to_va (2 ^ 52)) = 0 ∧ (2 ^ 52 : Nat) ≠ 0 := by
  constructor
  · unfold VirtAddr.floor VirtPageNum.to_va PAGE_SIZE PAGE_SIZE_BITS USIZE
    rw [Nat.shiftLeft_eq]
    norm_num
  · norm_num

/-! ### Claim C10 -/

/-- C10: at the public mmap syscall entry point, a zero-length request
immediately returns 0 without touching any state, and (for nonzero length) a
misaligned start or a start above 268439552 returns -1 without touching any
state. -/
theorem sys_mmap_edge_cases (ms : MemorySet) (m : Machine) (start len port : Nat) :
    (len = 0 → sys_mmap ms m start len port = .ok (0, ms, m)) ∧
    (len ≠ 0 → (start % PAGE_SIZE ≠ 0 ∨ 268439552 < start) →
      sys_mmap ms m start len port = .ok (-1, ms, m)) := by
  constructor
  · intro h
    unfold sys_mmap
    rw [if_pos h]
  · intro h1 h2
    unfold sys_mmap
    rw [if_neg h1, if_pos (Or.symm h2)]

/-- Witness for C10: a zero-length request returns 0, and a misaligned
nonzero-length request returns -1, on the concrete empty memory set. -/
theorem sys_mmap_edge_cases_witness :
    sys_mmap msEx mEx 4096 0 7 = .ok (0, msEx, mEx) ∧
    sys_mmap msEx mEx 5 4096 7 = .ok (-1, msEx, mEx) :=
  ⟨(sys_mmap_edge_cases msEx mEx 4096 0 7).1 rfl,
   (sys_mmap_edge_cases msEx mEx 5 4096 7).2 (by norm_num)
     (Or.inl (by norm_num [PAGE_SIZE]))⟩

/-! ### Claim C8 -/

/-- C8 (amended): provided the request survives the earlier guards — the
length is nonzero (a zero-length request returns 0 immediately, before the
permission check) and the start address is page-aligned and at most
268439552 — the mmap syscall rejects with -1, mutating nothing, every raw
permission pattern that has a bit above bit 2 set or none of bits 0-2 set;
a valid pattern is translated into the permission byte `permOf port`
(user-accessible bit 4 always set, and bits R/W/X set exactly for port bits
0/1/2) and handed to the address-space layer. -/
theorem sys_mmap_port_translation (ms : MemorySet) (m : Machine)
    (start len port : Nat) (hlen : len ≠ 0) (halign : start % PAGE_SIZE = 0)
    (hbound : start ≤ 268439552) (hport : port < USIZE) :
    ((8 ≤ port ∨ port &&& 7 = 0) → sys_mmap ms m start len port = .ok (-1, ms, m)) ∧
    (port < 8 → port &&& 7 ≠ 0 →
      sys_mmap ms m start len port =
        (match TaskManager.sys_mmap ms m start len (permOf port) with
         | .error e => .error e
         | .ok (ok, ms', m') => if ok then .ok (0, ms', m') else .ok (-1, ms', m')) ∧
      permOf port &&& 16 = 16 ∧
      ((permOf port &&& 2 = 2) ↔ port &&& 1 = 1) ∧
      ((permOf port &&& 4 = 4) ↔ port &&& 2 = 2) ∧
      ((permOf port &&& 8 = 8) ↔ port &&& 4 = 4)) := by
  have hneg : ¬(268439552 < start ∨ start % PAGE_SIZE ≠ 0) := by
    rintro (h | h)
    · omega
    · exact h halign
  constructor
  · intro h
    unfold sys_mmap
    rw [if_neg hlen, if_neg hneg, if_pos]
    rcases h with h | h
    · left
      intro heq
      have := (and_usize_sub8_eq_zero_iff port hport).mp heq
      omega
    · right
      exact h
  · intro h1 h2
    have hcond : ¬(port &&& (USIZE - 8) ≠ 0 ∨ port &&& 7 = 0) := by
      rintro (hc | hc)
      · exact hc ((and_usize_sub8_eq_zero_iff port hport).mpr h1)
      · exact h2 hc
    refine ⟨?_, ?_, ?_, ?_, ?_⟩
    · unfold sys_mmap
      rw [if_neg hlen, if_neg hneg, if_neg hcond]
    all_goals
      by_cases h3 : port % 2 = 1 <;> by_cases h4 : port &&& 2 = 2 <;>
        by_cases h5 : port &&& 4 = 4 <;>
        (simp [permOf, Nat.and_one_is_mod, h3, h4, h5]; try decide)

/-- Counterexample to C8 as stated: the raw pattern 9 has bit 3 set and must
be rejected with -1 according to the claim, but a request with length 0 is
answered with 0 before the permission pattern is ever examined. -/
theorem sys_mmap_port_counterexample :
    sys_mmap msEx mEx 0 0 9 = .ok (0, msEx, mEx) ∧ ((0 : Int) ≠ -1) := by
  constructor
  · rfl
  · decide

/-- Witness for C8: with nonzero length and an aligned, in-bounds start, the
invalid pattern 8 (only bit 3 set) is rejected with -1 on the concrete empty
memory set, and the valid pattern 3 is translated to the permission byte
`permOf 3 = 22` (U together with R and W) and handed to the address-space
layer. -/
theorem sys_mmap_port_translation_witness :
    sys_mmap msEx mEx 4096 4096 8 = .ok (-1, msEx, mEx) ∧
    (sys_mmap msEx mEx 4096 4096 3 =
      (match TaskManager.sys_mmap msEx mEx 4096 4096 (permOf 3) with
       | .error e => .error e
       | .ok (ok, ms', m') => if ok then .ok (0, ms', m') else .ok (-1, ms', m')) ∧
     permOf 3 &&& 16 = 16 ∧
     ((permOf 3 &&& 2 = 2) ↔ (3 : Nat) &&& 1 = 1) ∧
     ((permOf 3 &&& 4 = 4) ↔ (3 : Nat) &&& 2 = 2) ∧
     ((permOf 3 &&& 8 = 8) ↔ (3 : Nat) &&& 4 = 4)) :=
  ⟨(sys_mmap_port_translation msEx mEx 4096 4096 8 (by norm_num) (by decide)
      (by norm_num) (by norm_num [USIZE])).1 (Or.inl (by norm_num)),
   (sys_mmap_port_translation msEx mEx 4096 4096 3 (by norm_num) (by decide)
      (by norm_num) (by norm_num [USIZE])).2 (by norm_num) (by decide)⟩

/-! ### Allocator lemmas for C5 -/

namespace StackFrameAllocator

/-- Postcondition of allocating `n` frames from a well-formed allocator with
enough capacity: it succeeds, stays well-formed, and the pages handed out are
pairwise distinct, live (below the new high-water mark, not in the new free
list), and drawn from the old free list or the untouched range. -/
theorem allocN_post :
    ∀ (n : Nat) (s : StackFrameAllocator), s.WF → n ≤ s.capacity →
    ∃ ps s', s.allocN n = some (ps, s') ∧ s'.WF ∧ ps.Nodup ∧ ps.length = n ∧
      (∀ q ∈ ps, (q ∈ s.recycled ∨ s.current ≤ q) ∧ q < s'.current ∧ q ∉ s'.recycled) ∧
      (∀ q ∈ s'.recycled, q ∈ s.recycled) ∧ s.current ≤ s'.current ∧ s'.end_ = s.end_
  | 0, s, hwf, _ =>
    ⟨[], s, rfl, hwf, List.nodup_nil, rfl, by simp, fun q hq => hq, le_refl _, rfl⟩
  | n + 1, s, hwf, hn => by
    rcases hrec : s.recycled with _ | ⟨p, rest⟩
    · have hne : s.current ≠ s.end_ := by
        unfold capacity at hn
        rw [hrec] at hn
        simp at hn
        omega
      have hwf1 : WF ⟨s.current + 1, s.end_, []⟩ := by
        refine ⟨?_, List.nodup_nil, by simp⟩
        have := hwf.1
        show s.current + 1 ≤ s.end_
        omega
      have hcap1 : n ≤ capacity ⟨s.current + 1, s.end_, []⟩ := by
        unfold capacity at hn ⊢
        rw [hrec] at hn
        simp at hn ⊢
        omega
      obtain ⟨ps, s', h1, hwf', hnd, hlen, hfacts, hsub, hcur, hend⟩ :=
        allocN_post n ⟨s.current + 1, s.end_, []⟩ hwf1 hcap1
      refine ⟨s.current :: ps, s', ?_, hwf', ?_, by simp [hlen], ?_, ?_, ?_, ?_⟩
      · unfold allocN alloc
        rw [hrec]
        simp only [if_neg hne, h1]
      · refine List.Nodup.cons ?_ hnd
        intro hmem
        rcases (hfacts _ hmem).1 with h | h
        · simp at h
        · simp at h
      · intro q hq
        rcases List.mem_cons.mp hq with rfl | hq'
        · exact ⟨Or.inr (le_refl _), lt_of_lt_of_le (Nat.lt_succ_self _) hcur,
            fun hmem => by simpa using hsub _ hmem⟩
        · obtain ⟨hsrc, hlt, hnin⟩ := hfacts q hq'
          refine ⟨?_, hlt, hnin⟩
          rcases hsrc with h | h
          · simp at h
          · exact Or.inr (by simp at h; omega)
      · intro q hq
        have := hsub q hq
        simp at this
      · calc s.current ≤ s.current + 1 := Nat.le_succ _
          _ ≤ s'.current := hcur
      · exact hend
    · have hwf1 : WF ⟨s.current, s.end_, rest⟩ := by
        refine ⟨hwf.1, ?_, ?_⟩
        · have := hwf.2.1
          rw [hrec] at this
          exact this.of_cons
        · intro q hq
          exact hwf.2.2 q (by rw [hrec]; exact List.mem_cons_of_mem _ hq)
      have hp_lt : p < s.current := hwf.2.2 p (by rw [hrec]; exact List.mem_cons_self _ _)
      have hp_nin : p ∉ rest := by
        have := hwf.2.1
        rw [hrec] at this
        exact (List.nodup_cons.mp this).1
      have hcap1 : n ≤ capacity ⟨s.current, s.end_, rest⟩ := by
        unfold capacity at hn ⊢
        rw [hrec] at hn
        simp at hn ⊢
        omega
      obtain ⟨ps, s', h1, hwf', hnd, hlen, hfacts, hsub, hcur, hend⟩ :=
        allocN_post n ⟨s.current, s.end_, rest⟩ hwf1 hcap1
      refine ⟨p :: ps, s', ?_, hwf', ?_, by simp [hlen], ?_, ?_, ?_, ?_⟩
      · unfold allocN alloc
        rw [hrec]
        simp only [h1]
      · refine List.Nodup.cons ?_ hnd
        intro hmem
        rcases (hfacts _ hmem).1 with h | h
        · exact hp_nin (by simpa using h)
        · simp at h
          omega
      · intro q hq
        rcases List.mem_cons.mp hq with rfl | hq'
        · refine ⟨Or.inl (List.mem_cons_self _ _), ?_, ?_⟩
          · exact lt_of_lt_of_le hp_lt hcur
          · intro hmem
            exact hp_nin (by simpa using hsub _ hmem)
        · obtain ⟨hsrc, hlt, hnin⟩ := hfacts q hq'
          refine ⟨?_, hlt, hnin⟩
          rcases hsrc with h | h
          · exact Or.inl (List.mem_cons_of_mem _ (by simpa using h))
          · exact Or.inr (by simpa using h)
      · intro q hq
        have h2 := hsub q hq
        simp at h2
        exact List.mem_cons_of_mem _ h2
      · exact hcur
      · exact hend

end StackFrameAllocator

namespace StackFrameAllocator

/-- Deallocating a duplicate-free list of live pages succeeds and pushes them
onto the free list in order (most recently freed on top). -/
theorem dealloc_seq :
    ∀ (ps : List Nat) (s : StackFrameAllocator), ps.Nodup →
    (∀ q ∈ ps, q < s.current ∧ q ∉ s.recycled) →
    s.deallocList ps = some ⟨s.current, s.end_, ps.reverse ++ s.recycled⟩
  | [], s, _, _ => by
    cases s
    rfl
  | p :: ps, s, hnd, hfacts => by
    have hp := hfacts p (List.mem_cons_self _ _)
    have h1 : s.dealloc p = some ⟨s.current, s.end_, p :: s.recycled⟩ := by
      unfold dealloc
      rw [if_neg]
      push_neg
      exact ⟨by omega, hp.2⟩
    have h2 := dealloc_seq ps ⟨s.current, s.end_, p :: s.recycled⟩
      (List.nodup_cons.mp hnd).2
      (by
        intro q hq
        refine ⟨(hfacts q (List.mem_cons_of_mem _ hq)).1, ?_⟩
        intro hmem
        rcases List.mem_cons.mp hmem with rfl | hmem'
        · exact (List.nodup_cons.mp hnd).1 hq
        · exact (hfacts q (List.mem_cons_of_mem _ hq)).2 hmem')
    unfold deallocList
    rw [h1]
    show StackFrameAllocator.deallocList ⟨s.current, s.end_, p :: s.recycled⟩ ps = _
    rw [h2]
    congr 1
    simp

/-- When the free list holds at least `n` pages, allocating `n` frames pops
exactly the first `n` of them, in order. -/
theorem allocN_from_recycled :
    ∀ (n : Nat) (s : StackFrameAllocator), n ≤ s.recycled.length →
    s.allocN n = some (s.recycled.take n, ⟨s.current, s.end_, s.recycled.drop n⟩)
  | 0, s, _ => by
    cases s
    rfl
  | n + 1, s, hn => by
    rcases hrec : s.recycled with _ | ⟨p, rest⟩
    · rw [hrec] at hn
      simp at hn
    · have h2 := allocN_from_recycled n ⟨s.current, s.end_, rest⟩
        (by rw [hrec] at hn; simpa using hn)
      unfold allocN alloc
      rw [hrec]
      simp only [h2]
      simp

end StackFrameAllocator

/-! ### Claim C5 -/

/-- C5: from any well-formed allocator state, a freshly deallocated page is
immediately allocatable again; the allocator prefers the recycled free list
(LIFO) over advancing the high-water mark; and for every `n` within
capacity, allocating `n` frames, freeing all `n`, then allocating `n` again
returns exactly the same set of page numbers (in reverse order, by the stack
discipline) and restores the allocator to the same intermediate state. -/
theorem alloc_free_realloc (s : StackFrameAllocator) (n : Nat)
    (hwf : s.WF) (hn : n ≤ s.capacity) :
    (∀ p s' s'', s.alloc = some (p, s') → s'.dealloc p = some s'' →
      ∃ s3, s''.alloc = some (p, s3)) ∧
    (∀ p rest, s.recycled = p :: rest →
      s.alloc = some (p, ⟨s.current, s.end_, rest⟩)) ∧
    ∃ ps s1 s2, s.allocN n = some (ps, s1) ∧
      s1.deallocList ps = some s2 ∧
      s2.allocN n = some (ps.reverse, s1) ∧
      ps.reverse.Perm ps ∧ ps.length = n := by
  refine ⟨?_, ?_, ?_⟩
  · intro p s' s'' _ hde
    unfold StackFrameAllocator.dealloc at hde
    by_cases hc : s'.current ≤ p ∨ p ∈ s'.recycled
    · rw [if_pos hc] at hde
      exact absurd hde (by simp)
    · rw [if_neg hc] at hde
      cases hde
      exact ⟨⟨s'.current, s'.end_, s'.recycled⟩, rfl⟩
  · intro p rest hrec
    unfold StackFrameAllocator.alloc
    rw [hrec]
  · obtain ⟨ps, s1, h1, hwf1, hnd, hlen, hfacts, _, _, _⟩ :=
      StackFrameAllocator.allocN_post n s hwf hn
    have h2 := StackFrameAllocator.dealloc_seq ps s1 hnd
      (fun q hq => ⟨(hfacts q hq).2.1, (hfacts q hq).2.2⟩)
    have h3 := StackFrameAllocator.allocN_from_recycled n
      ⟨s1.current, s1.end_, ps.reverse ++ s1.recycled⟩
      (by simp; omega)
    rw [List.take_left' (by simp [hlen]), List.drop_left' (by simp [hlen])] at h3
    refine ⟨ps, s1, ⟨s1.current, s1.end_, ps.reverse ++ s1.recycled⟩, h1, h2, ?_,
      List.reverse_perm ps, hlen⟩
    rw [h3]

/-- Witness for C5 at the concrete well-formed state `⟨10, 20, [3, 1]⟩`
(pages 3 and 1 recycled, pages 10..19 untouched) with `n = 4`. -/
theorem alloc_free_realloc_witness :
    (∀ p s' s'', StackFrameAllocator.alloc ⟨10, 20, [3, 1]⟩ = some (p, s') →
      s'.dealloc p = some s'' → ∃ s3, s''.alloc = some (p, s3)) ∧
    (∀ p rest, (⟨10, 20, [3, 1]⟩ : StackFrameAllocator).recycled = p :: rest →
      StackFrameAllocator.alloc ⟨10, 20, [3, 1]⟩ = some (p, ⟨10, 20, rest⟩)) ∧
    ∃ ps s1 s2, StackFrameAllocator.allocN ⟨10, 20, [3, 1]⟩ 4 = some (ps, s1) ∧
      s1.deallocList ps = some s2 ∧
      s2.allocN 4 = some (ps.reverse, s1) ∧
      ps.reverse.Perm ps ∧ ps.length = 4 :=
  alloc_free_realloc ⟨10, 20, [3, 1]⟩ 4 (by decide) (by decide)

/-! ### Memory read-over-write lemmas -/

namespace Mem

theorem write_eq (mem : Mem) (p i x : Nat) : (mem.write p i x) p i = x := by
  simp [write]

theorem write_ne (mem : Mem) (p i x q j : Nat) (h : q ≠ p ∨ j ≠ i) :
    (mem.write p i x) q j = mem q j := by
  unfold write
  rw [if_neg]
  tauto

theorem zeroPage_eq (mem : Mem) (p i : Nat) : (mem.zeroPage p) p i = 0 := by
  simp [zeroPage]

theorem zeroPage_ne (mem : Mem) (p q j : Nat) (h : q ≠ p) :
    (mem.zeroPage p) q j = mem q j := by
  unfold zeroPage
  rw [if_neg h]

end Mem

/-- A physical page is live for machine `m` when the allocator has handed it
out and not (yet) recycled it: fresh allocations can never alias it. -/
def Machine.live (m : Machine) (q : Nat) : Prop :=
  q < m.fa.current ∧ q ∉ m.fa.recycled

instance (m : Machine) (q : Nat) : Decidable (m.live q) := by
  unfold Machine.live; infer_instance

/-- Full specification of a successful `alloc` from a well-formed state with
spare capacity: the page handed out is fresh (distinct from every live page),
below `end`, live afterwards, and liveness of other pages is preserved. -/
theorem StackFrameAllocator.alloc_spec (s : StackFrameAllocator)
    (hwf : s.WF) (hcap : 1 ≤ s.capacity) :
    ∃ f s', s.alloc = some (f, s') ∧ s'.WF ∧ f < s'.current ∧ f ∉ s'.recycled ∧
      f < s.end_ ∧ s'.end_ = s.end_ ∧ s.capacity = s'.capacity + 1 ∧
      (∀ q, q < s.current → q ∉ s.recycled → q < s'.current ∧ q ∉ s'.recycled ∧ q ≠ f) := by
  rcases hrec : s.recycled with _ | ⟨p, rest⟩
  · have hc : s.current < s.end_ := by
      unfold StackFrameAllocator.capacity at hcap
      rw [hrec] at hcap
      simp at hcap
      have := hwf.1
      omega
    refine ⟨s.current, ⟨s.current + 1, s.end_, []⟩, ?_, ?_, Nat.lt_succ_self _, by simp, hc,
      rfl, ?_, ?_⟩
    · unfold StackFrameAllocator.alloc
      rw [hrec, if_neg (Nat.ne_of_lt hc)]
    · exact ⟨show s.current + 1 ≤ s.end_ by omega, List.nodup_nil, by simp⟩
    · show s.capacity = [].length + (s.end_ - (s.current + 1)) + 1
      unfold StackFrameAllocator.capacity
      rw [hrec]
      simp
      omega
    · intro q hq1 _
      exact ⟨show q < s.current + 1 by omega, by simp, by omega⟩
  · have hp_lt : p < s.current := hwf.2.2 p (by rw [hrec]; exact List.mem_cons_self _ _)
    have hp_nin : p ∉ rest := by
      have h0 := hwf.2.1
      rw [hrec] at h0
      exact (List.nodup_cons.mp h0).1
    refine ⟨p, ⟨s.current, s.end_, rest⟩, ?_, ?_, hp_lt, hp_nin,
      lt_of_lt_of_le hp_lt hwf.1, rfl, ?_, ?_⟩
    · unfold StackFrameAllocator.alloc
      rw [hrec]
    · refine ⟨hwf.1, ?_, ?_⟩
      · have h0 := hwf.2.1
        rw [hrec] at h0
        exact (List.nodup_cons.mp h0).2
      · intro q hq
        exact hwf.2.2 q (by rw [hrec]; exact List.mem_cons_of_mem _ hq)
    · show s.capacity = rest.length + (s.end_ - s.current) + 1
      unfold StackFrameAllocator.capacity
      rw [hrec]
      simp
      omega
    · intro q hq1 hq2
      refine ⟨hq1, fun hmem => hq2 (List.mem_cons_of_mem _ hmem), ?_⟩
      intro heq
      exact hq2 (heq ▸ List.mem_cons_self _ _)

/-- `stepCreate` on a valid interior entry just descends. -/
theorem stepCreate_valid (node idx : Nat) (pt : PageTable) (m : Machine)
    (h : PageTableEntry.is_valid (m.mem node idx) = true) :
    stepCreate node idx pt m = .ok (PageTableEntry.ppn (m.mem node idx), pt, m) := by
  simp [stepCreate, h]

/-- `stepCreate` on an invalid interior entry allocates a fresh zeroed frame,
links it in, and descends into it. -/
theorem stepCreate_invalid (node idx : Nat) (pt : PageTable) (m : Machine)
    (f : Nat) (fa' : StackFrameAllocator)
    (h : PageTableEntry.is_valid (m.mem node idx) = false)
    (ha : m.fa.alloc = some (f, fa')) :
    stepCreate node idx pt m = .ok (PageTableEntry.ppn (PageTableEntry.new f 1),
      ⟨pt.root_ppn, pt.frames ++ [f]⟩,
      ⟨fa', (m.mem.zeroPage f).write node idx (PageTableEntry.new f 1)⟩) := by
  simp [stepCreate, h, frame_alloc, ha]

/-- The parity (valid bit) of a fresh entry is the parity of its flag byte. -/
theorem PageTableEntry.new_mod_two (p f : Nat) :
    PageTableEntry.new p f % 2 = f % 2 := by
  rw [PageTableEntry.new_eq]
  have h1 : p % 2 ^ 54 * 2 ^ 10 = 2 * (p % 2 ^ 54 * 2 ^ 9) := by ring
  have h2 : f % 256 % 2 = f % 2 := Nat.mod_mod_of_dvd _ (by norm_num)
  omega

/-- An interior entry created by the walk (flags = `V`) is valid. -/
theorem PageTableEntry.is_valid_new_one (p : Nat) :
    PageTableEntry.is_valid (PageTableEntry.new p 1) = true := by
  rw [PageTableEntry.is_valid_iff, PageTableEntry.new_mod_two]

/-- An 8-bit flag byte stays 8-bit after or-ing in the valid bit. -/
theorem lor_one_lt_256 (f : Nat) (hf : f < 256) : f ||| 1 < 256 :=
  Nat.bitwise_lt_two_pow (n := 8) hf (by norm_num)

/-- The three 9-bit components of `VirtPageNum::indexes`, from most to least
significant. -/
def idx0 (v : Nat) : Nat := (v >>> 18) &&& 511

/-- Second component of `VirtPageNum::indexes`. -/
def idx1 (v : Nat) : Nat := (v >>> 9) &&& 511

/-- Third component of `VirtPageNum::indexes`. -/
def idx2 (v : Nat) : Nat := v &&& 511

theorem indexes_eq (v : Nat) :
    VirtPageNum.indexes v = [idx0 v, idx1 v, idx2 v] := rfl

/-! ### Claim C1 -/

/-- C1 (amended): for every virtual page number `v`, physical page `p` and
flag byte `flags`, calling `map(v, p, flags)` on a page table whose leaf slot
for `v` is invalid (with a well-formed allocator that has at least two spare
frames and a live, non-aliased tree path for `v`, and `p` fitting in 44
bits) succeeds, and `translate(v)` then returns exactly the entry with
physical page number `p` and flags `flags | V`; after `unmap(v)` the leaf is
cleared and `translate(v)` returns the all-zero entry, whose valid bit is
clear — the interior nodes survive, so the result is the empty entry rather
than the not-found signal `none`. -/
theorem map_translate_unmap (pt : PageTable) (m : Machine) (v p flags : Nat)
    (e0 n1 e1 n2 : Nat)
    (he0 : e0 = m.mem pt.root_ppn (idx0 v))
    (hn1d : n1 = PageTableEntry.ppn e0)
    (he1 : e1 = m.mem n1 (idx1 v))
    (hn2d : n2 = PageTableEntry.ppn e1)
    (hwf : m.fa.WF) (hcap : 2 ≤ m.fa.capacity) (hend : m.fa.end_ ≤ 2 ^ 44)
    (hroot : m.live pt.root_ppn)
    (hA : PageTableEntry.is_valid e0 = true → m.live n1 ∧ n1 ≠ pt.root_ppn)
    (hB : PageTableEntry.is_valid e0 = true → PageTableEntry.is_valid e1 = true →
      m.live n2 ∧ n2 ≠ pt.root_ppn ∧ n2 ≠ n1)
    (hC : PageTableEntry.is_valid e0 = true → PageTableEntry.is_valid e1 = true →
      PageTableEntry.is_valid (m.mem n2 (idx2 v)) = false)
    (hp : p < 2 ^ 44) (hflags : flags < 256) :
    ∃ pt1 m1, pt.map m v p flags = .ok (pt1, m1) ∧
      pt1.translate m1 v = some (PageTableEntry.new p (flags ||| 1)) ∧
      PageTableEntry.ppn (PageTableEntry.new p (flags ||| 1)) = p ∧
      PageTableEntry.flags (PageTableEntry.new p (flags ||| 1)) = flags ||| 1 ∧
      PageTableEntry.is_valid (PageTableEntry.new p (flags ||| 1)) = true ∧
      ∃ pt2 m2, pt1.unmap m1 v = .ok (pt2, m2) ∧
        pt2.translate m2 v = some PageTableEntry.empty ∧
        PageTableEntry.is_valid PageTableEntry.empty = false := by
  have hppnE : PageTableEntry.ppn (PageTableEntry.new p (flags ||| 1)) = p :=
    PageTableEntry.ppn_new p _ hp
  have hflgE : PageTableEntry.flags (PageTableEntry.new p (flags ||| 1)) = flags ||| 1 := by
    rw [PageTableEntry.flags_new]
    exact Nat.mod_eq_of_lt (lor_one_lt_256 flags hflags)
  have hvalidE : PageTableEntry.is_valid (PageTableEntry.new p (flags ||| 1)) = true :=
    PageTableEntry.is_valid_new_lor_one p flags
  by_cases hv0 : PageTableEntry.is_valid e0 = true
  · by_cases hv1 : PageTableEntry.is_valid e1 = true
    · -- Case A: both interior levels already present, no allocation needed.
      obtain ⟨hlive1, hne1⟩ := hA hv0
      obtain ⟨hlive2, hne2r, hne2a⟩ := hB hv0 hv1
      have hleaf := hC hv0 hv1
      have eqA : stepCreate pt.root_ppn (idx0 v) pt m = .ok (n1, pt, m) := by
        rw [stepCreate_valid _ _ _ _ (he0 ▸ hv0), ← he0, ← hn1d]
      have eqB : stepCreate n1 (idx1 v) pt m = .ok (n2, pt, m) := by
        rw [stepCreate_valid _ _ _ _ (he1 ▸ hv1), ← he1, ← hn2d]
      have hfc : find_pte_create pt m v = .ok (n2, idx2 v, pt, m) := by
        simp only [find_pte_create, indexes_eq, eqA, eqB]
      set E := PageTableEntry.new p (flags ||| 1) with hE
      set m1 : Machine := ⟨m.fa, m.mem.write n2 (idx2 v) E⟩ with hm1
      have hmap : pt.map m v p flags = .ok (pt, m1) := by
        simp [PageTable.map, hfc, hleaf]
      have r0 : (m.mem.write n2 (idx2 v) E) pt.root_ppn (idx0 v) = e0 := by
        rw [Mem.write_ne _ _ _ _ _ _ (Or.inl (Ne.symm hne2r)), ← he0]
      have r1 : (m.mem.write n2 (idx2 v) E) n1 (idx1 v) = e1 := by
        rw [Mem.write_ne _ _ _ _ _ _ (Or.inl (Ne.symm hne2a)), ← he1]
      have r2 : (m.mem.write n2 (idx2 v) E) n2 (idx2 v) = E := Mem.write_eq _ _ _ _
      have htr1 : pt.translate m1 v = some E := by
        simp only [PageTable.translate, find_pte, indexes_eq, hm1, r0, hv0, ← hn1d, r1, hv1,
          ← hn2d, if_true, r2]
      have hr0 : m1.mem pt.root_ppn (idx0 v) = e0 := r0
      have hr1 : m1.mem n1 (idx1 v) = e1 := r1
      have eqA2 : stepCreate pt.root_ppn (idx0 v) pt m1 = .ok (n1, pt, m1) := by
        rw [stepCreate_valid _ _ _ _ (by rw [hr0]; exact hv0), hr0, ← hn1d]
      have eqB2 : stepCreate n1 (idx1 v) pt m1 = .ok (n2, pt, m1) := by
        rw [stepCreate_valid _ _ _ _ (by rw [hr1]; exact hv1), hr1, ← hn2d]
      have hfc2 : find_pte_create pt m1 v = .ok (n2, idx2 v, pt, m1) := by
        simp only [find_pte_create, indexes_eq, eqA2, eqB2]
      have hEv : PageTableEntry.is_valid E = true := hvalidE
      set m2 : Machine := ⟨m.fa, (m.mem.write n2 (idx2 v) E).write n2 (idx2 v)
        PageTableEntry.empty⟩ with hm2
      have hunmap : pt.unmap m1 v = .ok (pt, m2) := by
        simp [PageTable.unmap, hfc2, hm1, r2, hEv, hm2]
      have r0' : ((m.mem.write n2 (idx2 v) E).write n2 (idx2 v) PageTableEntry.empty)
          pt.root_ppn (idx0 v) = e0 := by
        rw [Mem.write_ne _ _ _ _ _ _ (Or.inl (Ne.symm hne2r))]
        exact r0
      have r1' : ((m.mem.write n2 (idx2 v) E).write n2 (idx2 v) PageTableEntry.empty)
          n1 (idx1 v) = e1 := by
        rw [Mem.write_ne _ _ _ _ _ _ (Or.inl (Ne.symm hne2a))]
        exact r1
      have r2' : ((m.mem.write n2 (idx2 v) E).write n2 (idx2 v) PageTableEntry.empty)
          n2 (idx2 v) = PageTableEntry.empty := Mem.write_eq _ _ _ _
      have htr2 : pt.translate m2 v = some PageTableEntry.empty := by
        simp only [PageTable.translate, find_pte, indexes_eq, hm2, r0', hv0, ← hn1d, r1', hv1,
          ← hn2d, if_true, r2']
      exact ⟨pt, m1, hmap, htr1, hppnE, hflgE, hvalidE, pt, m2, hunmap, htr2, rfl⟩
    · -- Case B: the level-1 node exists but the level-2 node must be created.
      have hv1f : PageTableEntry.is_valid e1 = false := by
        simpa using hv1
      obtain ⟨hlive1, hne1⟩ := hA hv0
      obtain ⟨f2, fa2, ha2, hwf2, hf2c, hf2r, hf2end, hend2, hcap2, hpre⟩ :=
        m.fa.alloc_spec hwf (by omega)
      have hf2lt : f2 < 2 ^ 44 := lt_of_lt_of_le hf2end hend
      have hpp2 : PageTableEntry.ppn (PageTableEntry.new f2 1) = f2 :=
        PageTableEntry.ppn_new f2 1 hf2lt
      have hrootf2 : pt.root_ppn ≠ f2 := (hpre _ hroot.1 hroot.2).2.2
      have hn1f2 : n1 ≠ f2 := (hpre _ hlive1.1 hlive1.2).2.2
      set X : Nat := PageTableEntry.new f2 1 with hX
      set E : Nat := PageTableEntry.new p (flags ||| 1) with hE
      set pt' : PageTable := ⟨pt.root_ppn, pt.frames ++ [f2]⟩ with hpt'
      have eqA : stepCreate pt.root_ppn (idx0 v) pt m = .ok (n1, pt, m) := by
        rw [stepCreate_valid _ _ _ _ (he0 ▸ hv0), ← he0, ← hn1d]
      have eqB : stepCreate n1 (idx1 v) pt m =
          .ok (f2, pt', ⟨fa2, (m.mem.zeroPage f2).write n1 (idx1 v) X⟩) := by
        rw [stepCreate_invalid _ _ _ _ f2 fa2 (he1 ▸ hv1f) ha2, hpp2]
      have hfc : find_pte_create pt m v =
          .ok (f2, idx2 v, pt', ⟨fa2, (m.mem.zeroPage f2).write n1 (idx1 v) X⟩) := by
        simp only [find_pte_create, indexes_eq, eqA, eqB]
      have hleaf : ((m.mem.zeroPage f2).write n1 (idx1 v) X) f2 (idx2 v) = 0 := by
        rw [Mem.write_ne _ _ _ _ _ _ (Or.inl (Ne.symm hn1f2)), Mem.zeroPage_eq]
      set m1 : Machine :=
        ⟨fa2, ((m.mem.zeroPage f2).write n1 (idx1 v) X).write f2 (idx2 v) E⟩ with hm1
      have hmap : pt.map m v p flags = .ok (pt', m1) := by
        simp [PageTable.map, hfc, hleaf, PageTableEntry.is_valid, PageTableEntry.flags, hm1]
      have r0 : (((m.mem.zeroPage f2).write n1 (idx1 v) X).write f2 (idx2 v) E)
          pt.root_ppn (idx0 v) = e0 := by
        rw [Mem.write_ne _ _ _ _ _ _ (Or.inl hrootf2),
          Mem.write_ne _ _ _ _ _ _ (Or.inl (Ne.symm hne1)),
          Mem.zeroPage_ne _ _ _ _ hrootf2, ← he0]
      have r1 : (((m.mem.zeroPage f2).write n1 (idx1 v) X).write f2 (idx2 v) E)
          n1 (idx1 v) = X := by
        rw [Mem.write_ne _ _ _ _ _ _ (Or.inl hn1f2), Mem.write_eq]
      have r2 : (((m.mem.zeroPage f2).write n1 (idx1 v) X).write f2 (idx2 v) E)
          f2 (idx2 v) = E := Mem.write_eq _ _ _ _
      have hXv : PageTableEntry.is_valid X = true := PageTableEntry.is_valid_new_one f2
      have htr1 : pt'.translate m1 v = some E := by
        simp only [PageTable.translate, find_pte, indexes_eq, hm1, hpt', r0, hv0, ← hn1d, r1,
          hXv, hX, hpp2, if_true, r2]
      have hr0 : m1.mem pt'.root_ppn (idx0 v) = e0 := r0
      have hr1 : m1.mem n1 (idx1 v) = X := r1
      have hr2 : m1.mem f2 (idx2 v) = E := r2
      have eqA2 : stepCreate pt'.root_ppn (idx0 v) pt' m1 = .ok (n1, pt', m1) := by
        rw [stepCreate_valid _ _ _ _ (by rw [hr0]; exact hv0), hr0, ← hn1d]
      have eqB2 : stepCreate n1 (idx1 v) pt' m1 = .ok (f2, pt', m1) := by
        rw [stepCreate_valid _ _ _ _ (by rw [hr1]; exact hXv), hr1, hX, hpp2]
      have hfc2 : find_pte_create pt' m1 v = .ok (f2, idx2 v, pt', m1) := by
        simp only [find_pte_create, indexes_eq, eqA2, eqB2]
      have hEv : PageTableEntry.is_valid E = true := hvalidE
      set m2 : Machine :=
        ⟨fa2, (((m.mem.zeroPage f2).write n1 (idx1 v) X).write f2 (idx2 v) E).write
          f2 (idx2 v) PageTableEntry.empty⟩ with hm2
      have hunmap : pt'.unmap m1 v = .ok (pt', m2) := by
        simp [PageTable.unmap, hfc2, hm1, r2, hEv, hm2]
      have r0' : ((((m.mem.zeroPage f2).write n1 (idx1 v) X).write f2 (idx2 v) E).write
          f2 (idx2 v) PageTableEntry.empty) pt.root_ppn (idx0 v) = e0 := by
        rw [Mem.write_ne _ _ _ _ _ _ (Or.inl hrootf2)]
        exact r0
      have r1' : ((((m.mem.zeroPage f2).write n1 (idx1 v) X).write f2 (idx2 v) E).write
          f2 (idx2 v) PageTableEntry.empty) n1 (idx1 v) = X := by
        rw [Mem.write_ne _ _ _ _ _ _ (Or.inl hn1f2)]
        exact r1
      have r2' : ((((m.mem.zeroPage f2).write n1 (idx1 v) X).write f2 (idx2 v) E).write
          f2 (idx2 v) PageTableEntry.empty) f2 (idx2 v) = PageTableEntry.empty :=
        Mem.write_eq _ _ _ _
      have htr2 : pt'.translate m2 v = some PageTableEntry.empty := by
        simp only [PageTable.translate, find_pte, indexes_eq, hm2, hpt', r0', hv0, ← hn1d, r1',
          hXv, hX, hpp2, if_true, r2']
      exact ⟨pt', m1, hmap, htr1, hppnE, hflgE, hvalidE, pt', m2, hunmap, htr2, rfl⟩
  · -- Case C: nothing of the path exists; both interior nodes are created.
    have hv0f : PageTableEntry.is_valid e0 = false := by
      simpa using hv0
    obtain ⟨f1, fa1, ha1, hwf1, hf1c, hf1r, hf1end, hend1, hcap1, hpre1⟩ :=
      m.fa.alloc_spec hwf (by omega)
    obtain ⟨f2, fa2, ha2, hwf2, hf2c, hf2r, hf2end, hend2, hcap2, hpre2⟩ :=
      fa1.alloc_spec hwf1 (by omega)
    have hf1lt : f1 < 2 ^ 44 := lt_of_lt_of_le hf1end hend
    have hf2lt : f2 < 2 ^ 44 := by
      rw [hend1] at hf2end
      exact lt_of_lt_of_le hf2end hend
    have hpp1 : PageTableEntry.ppn (PageTableEntry.new f1 1) = f1 :=
      PageTableEntry.ppn_new f1 1 hf1lt
    have hpp2 : PageTableEntry.ppn (PageTableEntry.new f2 1) = f2 :=
      PageTableEntry.ppn_new f2 1 hf2lt
    have hrootf1 : pt.root_ppn ≠ f1 := (hpre1 _ hroot.1 hroot.2).2.2
    have hrootlive1 : pt.root_ppn < fa1.current ∧ pt.root_ppn ∉ fa1.recycled :=
      ⟨(hpre1 _ hroot.1 hroot.2).1, (hpre1 _ hroot.1 hroot.2).2.1⟩
    have hrootf2 : pt.root_ppn ≠ f2 := (hpre2 _ hrootlive1.1 hrootlive1.2).2.2
    have hf1f2 : f1 ≠ f2 := (hpre2 _ hf1c hf1r).2.2
    set X1 : Nat := PageTableEntry.new f1 1 with hX1
    set X2 : Nat := PageTableEntry.new f2 1 with hX2
    set E : Nat := PageTableEntry.new p (flags ||| 1) with hE
    set ptA : PageTable := ⟨pt.root_ppn, pt.frames ++ [f1]⟩ with hptA
    set ptB : PageTable := ⟨pt.root_ppn, pt.frames ++ [f1, f2]⟩ with hptB
    have hptAB : (⟨ptA.root_ppn, ptA.frames ++ [f2]⟩ : PageTable) = ptB := by
      rw [hptA, hptB]
      simp
    set mA : Mem := (m.mem.zeroPage f1).write pt.root_ppn (idx0 v) X1 with hmA
    have eqA : stepCreate pt.root_ppn (idx0 v) pt m = .ok (f1, ptA, ⟨fa1, mA⟩) := by
      rw [stepCreate_invalid _ _ _ _ f1 fa1 (he0 ▸ hv0f) ha1, hpp1]
    have hreadA : mA f1 (idx1 v) = 0 := by
      rw [hmA, Mem.write_ne _ _ _ _ _ _ (Or.inl (Ne.symm hrootf1)), Mem.zeroPage_eq]
    have eqB : stepCreate f1 (idx1 v) ptA ⟨fa1, mA⟩ =
        .ok (f2, ptB, ⟨fa2, (mA.zeroPage f2).write f1 (idx1 v) X2⟩) := by
      rw [stepCreate_invalid _ _ _ _ f2 fa2
        (by show PageTableEntry.is_valid (mA f1 (idx1 v)) = false; rw [hreadA]; rfl) ha2,
        hpp2, hptAB]
    have hfc : find_pte_create pt m v =
        .ok (f2, idx2 v, ptB, ⟨fa2, (mA.zeroPage f2).write f1 (idx1 v) X2⟩) := by
      simp only [find_pte_create, indexes_eq, eqA, eqB]
    have hleaf : ((mA.zeroPage f2).write f1 (idx1 v) X2) f2 (idx2 v) = 0 := by
      rw [Mem.write_ne _ _ _ _ _ _ (Or.inl (Ne.symm hf1f2)), Mem.zeroPage_eq]
    set mem1 : Mem := ((mA.zeroPage f2).write f1 (idx1 v) X2).write f2 (idx2 v) E with hmem1
    set m1 : Machine := ⟨fa2, mem1⟩ with hm1
    have hmap : pt.map m v p flags = .ok (ptB, m1) := by
      simp [PageTable.map, hfc, hleaf, PageTableEntry.is_valid, PageTableEntry.flags,
        hm1, hmem1]
    have r0 : mem1 pt.root_ppn (idx0 v) = X1 := by
      rw [hmem1, Mem.write_ne _ _ _ _ _ _ (Or.inl hrootf2),
        Mem.write_ne _ _ _ _ _ _ (Or.inl hrootf1),
        Mem.zeroPage_ne _ _ _ _ hrootf2, hmA, Mem.write_eq]
    have r1 : mem1 f1 (idx1 v) = X2 := by
      rw [hmem1, Mem.write_ne _ _ _ _ _ _ (Or.inl hf1f2), Mem.write_eq]
    have r2 : mem1 f2 (idx2 v) = E := by
      rw [hmem1, Mem.write_eq]
    have hX1v : PageTableEntry.is_valid X1 = true := PageTableEntry.is_valid_new_one f1
    have hX2v : PageTableEntry.is_valid X2 = true := PageTableEntry.is_valid_new_one f2
    have htr1 : ptB.translate m1 v = some E := by
      simp only [PageTable.translate, find_pte, indexes_eq, hm1, hptB, r0, hX1v, hX1, hpp1,
        r1, hX2v, hX2, hpp2, if_true, r2]
    have hr0 : m1.mem ptB.root_ppn (idx0 v) = X1 := r0
    have hr1 : m1.mem f1 (idx1 v) = X2 := r1
    have hr2 : m1.mem f2 (idx2 v) = E := r2
    have eqA2 : stepCreate ptB.root_ppn (idx0 v) ptB m1 = .ok (f1, ptB, m1) := by
      rw [stepCreate_valid _ _ _ _ (by rw [hr0]; exact hX1v), hr0, hX1, hpp1]
    have eqB2 : stepCreate f1 (idx1 v) ptB m1 = .ok (f2, ptB, m1) := by
      rw [stepCreate_valid _ _ _ _ (by rw [hr1]; exact hX2v), hr1, hX2, hpp2]
    have hfc2 : find_pte_create ptB m1 v = .ok (f2, idx2 v, ptB, m1) := by
      simp only [find_pte_create, indexes_eq, eqA2, eqB2]
    have hEv : PageTableEntry.is_valid E = true := hvalidE
    set m2 : Machine := ⟨fa2, mem1.write f2 (idx2 v) PageTableEntry.empty⟩ with hm2
    have hunmap : ptB.unmap m1 v = .ok (ptB, m2) := by
      simp [PageTable.unmap, hfc2, hm1, r2, hEv, hm2]
    have r0' : (mem1.write f2 (idx2 v) PageTableEntry.empty) pt.root_ppn (idx0 v) = X1 := by
      rw [Mem.write_ne _ _ _ _ _ _ (Or.inl hrootf2)]
      exact r0
    have r1' : (mem1.write f2 (idx2 v) PageTableEntry.empty) f1 (idx1 v) = X2 := by
      rw [Mem.write_ne _ _ _ _ _ _ (Or.inl hf1f2)]
      exact r1
    have r2' : (mem1.write f2 (idx2 v) PageTableEntry.empty) f2 (idx2 v) =
        PageTableEntry.empty := Mem.write_eq _ _ _ _
    have htr2 : ptB.translate m2 v = some PageTableEntry.empty := by
      simp only [PageTable.translate, find_pte, indexes_eq, hm2, hptB, r0', hX1v, hX1, hpp1,
        r1', hX2v, hX2, hpp2, if_true, r2']
    exact ⟨ptB, m1, hmap, htr1, hppnE, hflgE, hvalidE, ptB, m2, hunmap, htr2, rfl⟩

/-- Witness for C1 at a concrete fresh table (root page 100, allocator over
`[101, 200)`, zeroed memory), `v = 74565`, `p = 7`, `flags = 2` (readable). -/
theorem map_translate_unmap_witness :
    ∃ pt1 m1, PageTable.map ⟨100, [100]⟩ ⟨⟨101, 200, []⟩, fun _ _ => 0⟩ 74565 7 2 =
        .ok (pt1, m1) ∧
      pt1.translate m1 74565 = some (PageTableEntry.new 7 (2 ||| 1)) ∧
      PageTableEntry.ppn (PageTableEntry.new 7 (2 ||| 1)) = 7 ∧
      PageTableEntry.flags (PageTableEntry.new 7 (2 ||| 1)) = 2 ||| 1 ∧
      PageTableEntry.is_valid (PageTableEntry.new 7 (2 ||| 1)) = true ∧
      ∃ pt2 m2, pt1.unmap m1 74565 = .ok (pt2, m2) ∧
        pt2.translate m2 74565 = some PageTableEntry.empty ∧
        PageTableEntry.is_valid PageTableEntry.empty = false :=
  map_translate_unmap ⟨100, [100]⟩ ⟨⟨101, 200, []⟩, fun _ _ => 0⟩ 74565 7 2 0 0 0 0
    rfl (by decide) rfl (by decide) (by decide) (by decide) (by decide) (by decide)
    (by decide) (by decide) (by decide) (by decide) (by decide)

/-- Counterexample to C1 as stated: after `map(v, p, flags)` followed by
`unmap(v)` on a fresh table, `translate(v)` does not report not-found
(`none`) — the interior nodes survive, so it returns a copy of the cleared
all-zero leaf entry. -/
theorem map_translate_unmap_counterexample :
    (match PageTable.map ⟨100, [100]⟩ ⟨⟨101, 200, []⟩, fun _ _ => 0⟩ 74565 7 2 with
     | .ok (pt1, m1) =>
       match pt1.unmap m1 74565 with
       | .ok (pt2, m2) => pt2.translate m2 74565
       | .error _ => none
     | .error _ => none) = some PageTableEntry.empty ∧
    some PageTableEntry.empty ≠ (none : Option Nat) := by
  constructor
  · decide
  · simp

/-! ### Claim C7 -/

/-- C7: evaluation of the os4 `PageTable::unmap` (whose assertion is the
copy-pasted `assert!(!pte.is_valid())` from `map`) on a fresh table where
`map(74565, 7, 2)` has just installed a valid leaf: unmapping the mapped page
panics instead of clearing it, and — after the leaf has been cleared by the
os4-ref `unmap` — unmapping the now-unmapped page succeeds silently instead
of aborting.  Both outcomes are the exact inverse of the claimed contract
(the `map` halves of the two copies agree and match the claim). -/
theorem unmap_os4_inverted :
    (match PageTable.map ⟨100, [100]⟩ ⟨⟨101, 200, []⟩, fun _ _ => 0⟩ 74565 7 2 with
     | .ok (pt1, m1) =>
       match pt1.unmap_os4 m1 74565 with
       | .ok _ => none
       | .error e => some e
     | .error _ => none) = some KErr.assertFail ∧
    (match PageTable.map ⟨100, [100]⟩ ⟨⟨101, 200, []⟩, fun _ _ => 0⟩ 74565 7 2 with
     | .ok (pt1, m1) =>
       match pt1.unmap m1 74565 with
       | .ok (pt2, m2) =>
         match pt2.unmap_os4 m2 74565 with
         | .ok _ => some true
         | .error _ => some false
       | .error _ => none
     | .error _ => none) = some true := by
  constructor
  · decide
  · decide

/-! ### Claim C4 -/

/-- C4: the os4 `MemorySet::remove` on an exactly-matching mmapped area
`[0, 0x1000)` does not return 0 — it panics inside the os4
`PageTable::unmap` (inverted validity assertion, see C7) while unmapping the
area's first (mapped) page; a request matching no area returns -1. -/
theorem remove_exact_match_panics :
    (match TaskManager.sys_mmap msEx mEx 0 4096 22 with
     | .ok (_, ms1, m1) =>
       match ms1.remove m1 0 4096 with
       | .error e => some e
       | .ok _ => none
     | .error _ => none) = some KErr.assertFail ∧
    (match TaskManager.sys_mmap msEx mEx 0 4096 22 with
     | .ok (_, ms1, m1) =>
       match ms1.remove m1 8192 4096 with
       | .ok (r, _, _) => some r
       | .error _ => none
     | .error _ => none) = some (-1) := by
  constructor
  · decide
  · decide

/-! ### Claim C3 -/

/-- `MapArea::map_one` never changes the area's range, policy or permission
(only `data_frames`). -/
theorem MapArea.map_one_preserves (a : MapArea) (pt : PageTable) (m : Machine)
    (vpn : Nat) (a' : MapArea) (pt' : PageTable) (m' : Machine)
    (h : a.map_one pt m vpn = .ok (a', pt', m')) :
    a'.vpn_start = a.vpn_start ∧ a'.vpn_end = a.vpn_end ∧
      a'.map_type = a.map_type ∧ a'.map_perm = a.map_perm := by
  unfold MapArea.map_one at h
  rcases hty : a.map_type with _ | _ <;> simp only [hty] at h
  · rcases hm : pt.map m vpn vpn a.map_perm with e | ⟨pt1, m1⟩ <;> simp only [hm] at h
    · exact absurd h (by simp)
    · simp only [Except.ok.injEq, Prod.mk.injEq] at h
      obtain ⟨h1, h2, h3⟩ := h
      subst h1
      exact ⟨rfl, rfl, hty, rfl⟩
  · rcases hfa : frame_alloc m with _ | ⟨f, mf⟩ <;> simp only [hfa] at h
    · exact absurd h (by simp)
    · rcases hm : pt.map mf vpn f a.map_perm with e | ⟨pt1, m1⟩ <;> simp only [hm] at h
      · exact absurd h (by simp)
      · simp only [Except.ok.injEq, Prod.mk.injEq] at h
        obtain ⟨h1, h2, h3⟩ := h
        subst h1
        exact ⟨rfl, rfl, rfl, rfl⟩

/-- The `MapArea::map` loop never changes the area's range, policy or
permission. -/
theorem MapArea.mapRange_preserves :
    ∀ (n vpn : Nat) (a : MapArea) (pt : PageTable) (m : Machine)
      (a' : MapArea) (pt' : PageTable) (m' : Machine),
    MapArea.mapRange a pt m n vpn = .ok (a', pt', m') →
    a'.vpn_start = a.vpn_start ∧ a'.vpn_end = a.vpn_end ∧
      a'.map_type = a.map_type ∧ a'.map_perm = a.map_perm
  | 0, vpn, a, pt, m, a', pt', m', h => by
    unfold MapArea.mapRange at h
    cases h
    exact ⟨rfl, rfl, rfl, rfl⟩
  | n + 1, vpn, a, pt, m, a', pt', m', h => by
    unfold MapArea.mapRange at h
    rcases h1 : a.map_one pt m vpn with e | ⟨a1, pt1, m1⟩ <;> simp only [h1] at h
    · exact absurd h (by simp)
    · obtain ⟨e1, e2, e3, e4⟩ := MapArea.map_one_preserves a pt m vpn a1 pt1 m1 h1
      obtain ⟨g1, g2, g3, g4⟩ := MapArea.mapRange_preserves n (vpn + 1) a1 pt1 m1 a' pt' m' h
      exact ⟨g1.trans e1, g2.trans e2, g3.trans e3, g4.trans e4⟩

/-- C3: mmap-style insertion (`TaskManager::sys_mmap`) rejects, returning the
failure code `false` and leaving the area list and the page table exactly as
they were, every request whose page range `[floor(start), ceil(start+len))`
intersects an existing area in the half-open-interval sense
(`new.start < existing.end && existing.start < new.end`); a non-overlapping
request (whose page mapping loop completes) succeeds, appending one `Framed`
area covering exactly that page-aligned range with the requested permission. -/
theorem sys_mmap_overlap_check (ms : MemorySet) (m : Machine)
    (start len perm : Nat) (hsz : start + len < 2 ^ 51) :
    ((ms.areas.any fun a => decide (VirtAddr.floor start < a.vpn_end) &&
        decide (VirtAddr.ceil ((start + len) % USIZE) > a.vpn_start)) = true →
      TaskManager.sys_mmap ms m start len perm = .ok (false, ms, m)) ∧
    ((ms.areas.any fun a => decide (VirtAddr.floor start < a.vpn_end) &&
        decide (VirtAddr.ceil ((start + len) % USIZE) > a.vpn_start)) = false →
      ∀ a' pt' m',
        MapArea.map (MapArea.new (VirtPageNum.to_va (VirtAddr.floor start))
          (VirtPageNum.to_va (VirtAddr.ceil ((start + len) % USIZE))) .Framed perm)
          ms.page_table m = .ok (a', pt', m') →
        TaskManager.sys_mmap ms m start len perm =
          .ok (true, ⟨pt', ms.areas ++ [a']⟩, m') ∧
        a'.vpn_start = VirtAddr.floor start ∧
        a'.vpn_end = VirtAddr.ceil (start + len) ∧
        a'.map_type = .Framed ∧ a'.map_perm = perm) := by
  constructor
  · intro h
    unfold TaskManager.sys_mmap
    rw [if_pos h]
  · intro h a' pt' m' hloop
    have hres : TaskManager.sys_mmap ms m start len perm =
        .ok (true, ⟨pt', ms.areas ++ [a']⟩, m') := by
      unfold TaskManager.sys_mmap
      rw [if_neg (by rw [h]; simp)]
      unfold MemorySet.insert_framed_area MemorySet.push
      rw [hloop]
    obtain ⟨g1, g2, g3, g4⟩ := MapArea.mapRange_preserves _ _ _ _ _ _ _ _ hloop
    have hmod : (start + len) % USIZE = start + len := by
      apply Nat.mod_eq_of_lt
      unfold USIZE
      omega
    have hfs : VirtAddr.floor start < 2 ^ 52 := by
      unfold VirtAddr.floor PAGE_SIZE
      omega
    have hcs : VirtAddr.ceil (start + len) < 2 ^ 52 := by
      unfold VirtAddr.ceil PAGE_SIZE USIZE
      omega
    refine ⟨hres, ?_, ?_, g3, g4⟩
    · rw [g1]
      show VirtAddr.floor (VirtPageNum.to_va (VirtAddr.floor start)) = VirtAddr.floor start
      unfold VirtAddr.floor VirtPageNum.to_va PAGE_SIZE PAGE_SIZE_BITS USIZE
      rw [Nat.shiftLeft_eq]
      have h12 : (2 : Nat) ^ 12 = 4096 := by norm_num
      rw [h12]
      omega
    · rw [g2, hmod]
      show VirtAddr.ceil (VirtPageNum.to_va (VirtAddr.ceil (start + len))) =
        VirtAddr.ceil (start + len)
      unfold VirtAddr.ceil VirtPageNum.to_va PAGE_SIZE PAGE_SIZE_BITS USIZE
      rw [Nat.shiftLeft_eq]
      have h12 : (2 : Nat) ^ 12 = 4096 := by norm_num
      rw [h12]
      omega

/-- Witness for C3: inserting `[0, 0x1000)` over a memory set that already
has an area `[0, 2)` fails and changes nothing; the same request on an empty
memory set succeeds and appends one framed area over pages `[0, 1)`. -/
theorem sys_mmap_overlap_check_witness :
    TaskManager.sys_mmap ⟨⟨0, []⟩, [⟨0, 2, .Framed, 22, []⟩]⟩ mEx 0 4096 22 =
      .ok (false, ⟨⟨0, []⟩, [⟨0, 2, .Framed, 22, []⟩]⟩, mEx) ∧
    ∃ a' pt' m',
      MapArea.map (MapArea.new (VirtPageNum.to_va (VirtAddr.floor 0))
        (VirtPageNum.to_va (VirtAddr.ceil ((0 + 4096) % USIZE))) .Framed 22)
        msEx.page_table mEx = .ok (a', pt', m') ∧
      TaskManager.sys_mmap msEx mEx 0 4096 22 = .ok (true, ⟨pt', msEx.areas ++ [a']⟩, m') ∧
      a'.vpn_start = VirtAddr.floor 0 ∧ a'.vpn_end = VirtAddr.ceil (0 + 4096) ∧
      a'.map_type = .Framed ∧ a'.map_perm = 22 :=
  ⟨(sys_mmap_overlap_check ⟨⟨0, []⟩, [⟨0, 2, .Framed, 22, []⟩]⟩ mEx 0 4096 22
      (by norm_num)).1 (by decide),
   ⟨_, _, _, rfl, (sys_mmap_overlap_check msEx mEx 0 4096 22 (by norm_num)).2
      (by decide) _ _ _ rfl⟩⟩
